import Mathlib

/-!
Verification development for the BLisp language pipeline (`init`, `typing`,
`eval` from `src/lib.rs`).  The `parser`, `semantics` and `runtime`
sub-modules and the bundled `prelude.lisp` are not part of the source tree,
so they are modelled from the specification; `init`, `typing` and `eval`
themselves are translated directly from `src/lib.rs`.
-/

namespace BLisp

/-- File id of the embedded prelude (`FILE_ID_PRELUD` in `src/lib.rs`). -/
def FILE_ID_PRELUD : Nat := 0

/-- File id of user code passed to `init` (`FILE_ID_USER` in `src/lib.rs`). -/
def FILE_ID_USER : Nat := 1

/-- File id of expressions passed to `eval` (`FILE_ID_EVAL` in `src/lib.rs`). -/
def FILE_ID_EVAL : Nat := 2

/-- Source position: file identifier, 0-origin line and column
(`Pos` in `src/lib.rs`). -/
structure Pos where
  file_id : Nat
  line : Nat
  column : Nat
deriving DecidableEq, Repr

/-- Error with message and position (`LispErr` in `src/lib.rs`). -/
structure LispErr where
  msg : String
  pos : Pos
deriving DecidableEq, Repr

/-- Syntax error produced by the parser, wrapped by `init` into a `LispErr`. -/
structure SynErr where
  msg : String
  pos : Pos
deriving DecidableEq, Repr

/-- Modelled from the spec: the parser's `Expr` (the `parser` module is not
under `src/`).  Tagged variants for integer, boolean, identifier,
list `(…)`, tuple `[…]`, quoted expression, character and string literals,
each carrying a `Pos`. -/
inductive Expr where
  | num (n : Int) (pos : Pos)
  | boolv (b : Bool) (pos : Pos)
  | id (s : String) (pos : Pos)
  | lst (es : List Expr) (pos : Pos)
  | tuple (es : List Expr) (pos : Pos)
  | quote (e : Expr) (pos : Pos)
  | chr (c : Char) (pos : Pos)
  | strv (s : String) (pos : Pos)

mutual

/-- Structural equality test on expressions. -/
def eqbE : Expr → Expr → Bool
  | .num n p, .num m q => decide (n = m) && decide (p = q)
  | .boolv b p, .boolv c q => decide (b = c) && decide (p = q)
  | .id s p, .id t q => decide (s = t) && decide (p = q)
  | .lst es p, .lst fs q => eqbL es fs && decide (p = q)
  | .tuple es p, .tuple fs q => eqbL es fs && decide (p = q)
  | .quote e p, .quote f q => eqbE e f && decide (p = q)
  | .chr c p, .chr d q => decide (c = d) && decide (p = q)
  | .strv s p, .strv t q => decide (s = t) && decide (p = q)
  | _, _ => false

/-- Structural equality test on expression lists. -/
def eqbL : List Expr → List Expr → Bool
  | [], [] => true
  | e :: es, f :: fs => eqbE e f && eqbL es fs
  | _, _ => false

end

mutual

/-- Node count of an expression. -/
def exprSize : Expr → Nat
  | .lst es _ => exprSizeL es + 1
  | .tuple es _ => exprSizeL es + 1
  | .quote e _ => exprSize e + 1
  | _ => 1

/-- Node count of an expression list. -/
def exprSizeL : List Expr → Nat
  | [] => 0
  | e :: es => exprSize e + exprSizeL es + 1

end

/-- The apostrophe character used for quoted lists and character literals. -/
def qchar : Char := Char.ofNat 39

/-- Whitespace per the spec: space, tab, CR, LF. -/
def isWS (c : Char) : Bool := c = ' ' || c = '\t' || c = '\r' || c = '\n'

/-- Characters that terminate an identifier. -/
def isDelim (c : Char) : Bool :=
  c = '(' || c = ')' || c = '[' || c = ']' || c = ';' || c = qchar || c = '"'

/-- Identifier characters: visible ASCII excluding delimiters. -/
def isIdentChar (c : Char) : Bool :=
  0x21 ≤ c.toNat && c.toNat ≤ 0x7e && !(isDelim c)

/-- Parser state: remaining characters with current line and column. -/
structure PState where
  cs : List Char
  line : Nat
  col : Nat

/-- Skip whitespace and `;`-to-end-of-line comments, tracking positions.
The boolean is true while inside a comment. -/
def skipWSAux : List Char → Bool → Nat → Nat → List Char × Nat × Nat
  | [], _, line, col => ([], line, col)
  | c :: rest, inC, line, col =>
    let line' := if c = '\n' then line + 1 else line
    let col' := if c = '\n' then 0 else col + 1
    if inC then
      skipWSAux rest (!(c = '\n')) line' col'
    else if isWS c then
      skipWSAux rest false line' col'
    else if c = ';' then
      skipWSAux rest true line' col'
    else
      (c :: rest, line, col)

/-- Skip whitespace and comments in a parser state. -/
def skipWS (st : PState) : PState :=
  match skipWSAux st.cs false st.line st.col with
  | (cs, line, col) => ⟨cs, line, col⟩

/-- Take the longest identifier-character prefix. -/
def takeAtom : List Char → List Char × List Char
  | [] => ([], [])
  | c :: rest =>
    if isIdentChar c then
      match takeAtom rest with
      | (a, r) => (c :: a, r)
    else ([], c :: rest)

/-- Value of a digit character, for bases up to 16. -/
def digitVal (c : Char) : Option Nat :=
  let n := c.toNat
  if 48 ≤ n && n ≤ 57 then some (n - 48)
  else if 97 ≤ n && n ≤ 102 then some (n - 97 + 10)
  else if 65 ≤ n && n ≤ 70 then some (n - 65 + 10)
  else none

/-- Parse digits in the given base. -/
def natFromDigits (base : Nat) : List Char → Nat → Option Nat
  | [], acc => some acc
  | c :: rest, acc =>
    match digitVal c with
    | some d => if d < base then natFromDigits base rest (acc * base + d) else none
    | none => none

/-- Parse the digit part of an integer literal: `0x`, `0b`, `0o` prefixes
select bases 16, 2, 8; otherwise decimal. -/
def natOfAtom (cs : List Char) : Option Nat :=
  match cs with
  | '0' :: 'x' :: rest => if rest.isEmpty then none else natFromDigits 16 rest 0
  | '0' :: 'b' :: rest => if rest.isEmpty then none else natFromDigits 2 rest 0
  | '0' :: 'o' :: rest => if rest.isEmpty then none else natFromDigits 8 rest 0
  | _ => if cs.isEmpty then none else natFromDigits 10 cs 0

/-- Classify a lexed atom as an integer, boolean or identifier. -/
def classifyAtom (acs : List Char) (p : Pos) : Except SynErr Expr :=
  let s := String.mk acs
  if s = "true" then .ok (.boolv true p)
  else if s = "false" then .ok (.boolv false p)
  else
    match acs with
    | '-' :: c :: rest =>
      if '0' ≤ c && c ≤ '9' then
        match natOfAtom (c :: rest) with
        | some n => .ok (.num (-(n : Int)) p)
        | none => .error ⟨"invalid integer literal", p⟩
      else .ok (.id s p)
    | c :: _ =>
      if '0' ≤ c && c ≤ '9' then
        match natOfAtom acs with
        | some n => .ok (.num (n : Int) p)
        | none => .error ⟨"invalid integer literal", p⟩
      else .ok (.id s p)
    | [] => .error ⟨"empty atom", p⟩

/-- Resolve a backslash escape. -/
def unescape (c : Char) : Option Char :=
  if c = 'n' then some '\n'
  else if c = 't' then some '\t'
  else if c = '\\' then some '\\'
  else if c = '"' then some '"'
  else if c = qchar then some qchar
  else none

/-- Lex a string literal body (the opening quote is already consumed). -/
def lexStrAux (fid : Nat) (cs0 : List Char) (line col : Nat) :
    Except SynErr (List Char × PState) :=
  match cs0 with
  | [] => .error ⟨"unterminated string", ⟨fid, line, col⟩⟩
  | c :: rest =>
    if c = '"' then .ok ([], ⟨rest, line, col + 1⟩)
    else if c = '\\' then
      match rest with
      | [] => .error ⟨"unterminated string", ⟨fid, line, col⟩⟩
      | e :: rest2 =>
        match unescape e with
        | some ch =>
          match lexStrAux fid rest2 line (col + 2) with
          | .ok (cs, st) => .ok (ch :: cs, st)
          | .error er => .error er
        | none => .error ⟨"unknown escape", ⟨fid, line, col⟩⟩
    else
      let line' := if c = '\n' then line + 1 else line
      let col' := if c = '\n' then 0 else col + 1
      match lexStrAux fid rest line' col' with
      | .ok (cs, st) => .ok (c :: cs, st)
      | .error er => .error er

/-- Recognize a character literal right after an apostrophe:
returns the character, the rest of the input and the consumed length. -/
def charLit : List Char → Option (Char × List Char × Nat)
  | '\\' :: e :: q :: rest =>
    if q = qchar then (unescape e).map (fun ch => (ch, rest, 4)) else none
  | d :: q :: rest =>
    if q = qchar && !(d = '(') && !(d = '\\') then some (d, rest, 3) else none
  | _ => none

mutual

/-- Modelled from the spec: the recursive-descent S-expression parser of the
missing `parser` module.  `expr ::= atom | ( expr* ) | [ expr* ] | quote expr`,
with string and character literals.  Fuel bounds the recursion depth. -/
def parseExpr (fid : Nat) (fuel0 : Nat) (st₀ : PState) : Except SynErr (Expr × PState) :=
  match fuel0 with
  | 0 => .error ⟨"parser recursion limit", ⟨fid, st₀.line, st₀.col⟩⟩
  | fuel + 1 =>
    let st := skipWS st₀
    match st.cs with
    | [] => .error ⟨"unexpected end of input", ⟨fid, st.line, st.col⟩⟩
    | c :: rest =>
      let p : Pos := ⟨fid, st.line, st.col⟩
      if c = '(' then
        match parseMany fid fuel ⟨rest, st.line, st.col + 1⟩ ')' p with
        | .ok (es, st') => .ok (.lst es p, st')
        | .error er => .error er
      else if c = '[' then
        match parseMany fid fuel ⟨rest, st.line, st.col + 1⟩ ']' p with
        | .ok (es, st') => .ok (.tuple es p, st')
        | .error er => .error er
      else if c = ')' || c = ']' then
        .error ⟨"unexpected closing delimiter", p⟩
      else if c = '"' then
        match lexStrAux fid rest st.line (st.col + 1) with
        | .ok (cs, st') => .ok (.strv (String.mk cs) p, st')
        | .error er => .error er
      else if c = qchar then
        match charLit rest with
        | some (ch, rest', len) => .ok (.chr ch p, ⟨rest', st.line, st.col + len⟩)
        | none =>
          match parseExpr fid fuel ⟨rest, st.line, st.col + 1⟩ with
          | .ok (e, st') => .ok (.quote e p, st')
          | .error er => .error er
      else
        match takeAtom (c :: rest) with
        | (acs, rest') =>
          match acs with
          | [] => .error ⟨"unexpected character", p⟩
          | a :: as =>
            match classifyAtom (a :: as) p with
            | .ok e => .ok (e, ⟨rest', st.line, st.col + (a :: as).length⟩)
            | .error er => .error er

/-- Parse expressions until the closing delimiter `close`; `popen` is the
position of the opening delimiter, reported on unbalanced input. -/
def parseMany (fid : Nat) (fuel0 : Nat) (st₀ : PState) (close : Char) (popen : Pos) :
    Except SynErr (List Expr × PState) :=
  match fuel0 with
  | 0 => .error ⟨"parser recursion limit", ⟨fid, st₀.line, st₀.col⟩⟩
  | fuel + 1 =>
    let st := skipWS st₀
    match st.cs with
    | [] => .error ⟨"unbalanced delimiter", popen⟩
    | c :: rest =>
      if c = close then .ok ([], ⟨rest, st.line, st.col + 1⟩)
      else if c = ')' || c = ']' then
        .error ⟨"mismatched delimiter", ⟨fid, st.line, st.col⟩⟩
      else
        match parseExpr fid fuel st with
        | .ok (e, st') =>
          match parseMany fid fuel st' close popen with
          | .ok (es, st'') => .ok (e :: es, st'')
          | .error er => .error er
        | .error er => .error er

end

/-- Parse a whole source text into its forest of top-level expressions. -/
def parseAll (fid : Nat) (fuel0 : Nat) (st₀ : PState) : Except SynErr (List Expr) :=
  match fuel0 with
  | 0 => .error ⟨"parser recursion limit", ⟨fid, st₀.line, st₀.col⟩⟩
  | fuel + 1 =>
    let st := skipWS st₀
    match st.cs with
    | [] => .ok []
    | _ =>
      match parseExpr fid fuel st with
      | .ok (e, st') =>
        match parseAll fid fuel st' with
        | .ok es => .ok (e :: es)
        | .error er => .error er
      | .error er => .error er

/-- Modelled from the spec: entry point of the missing `parser` module.
Parses a source text under a file id into a forest of top-level
expressions, or reports a syntax error with a position. -/
def parse (code : String) (fid : Nat) : Except SynErr (List Expr) :=
  parseAll fid (code.length * 2 + 8) ⟨code.data, 0, 0⟩

/-- The position carried by an expression node. -/
def posOf : Expr → Pos
  | .num _ p => p
  | .boolv _ p => p
  | .id _ p => p
  | .lst _ p => p
  | .tuple _ p => p
  | .quote _ p => p
  | .chr _ p => p
  | .strv _ p => p

/-- Modelled from the spec: the effect row, `Pure` or `IO`. -/
inductive Effect where
  | pure
  | io
deriving DecidableEq, Repr

/-- Effect ordering `Pure ≤ IO`: a body of declared effect `e` may call a
function of effect `e'` exactly when `Effect.le e' e`. -/
def Effect.le : Effect → Effect → Bool
  | .pure, _ => true
  | .io, .io => true
  | .io, .pure => false

/-- Modelled from the spec: the type language of the missing `semantics`
module.  Atomic types, scheme (rigid) type variables, unification
metavariables, tuples, lists, data applications and effect-tagged
function types. -/
inductive Ty where
  | int
  | bool
  | char
  | str
  | tvar (name : String)
  | mvar (n : Nat)
  | tuple (ts : List Ty)
  | lstTy (t : Ty)
  | data (name : String) (args : List Ty)
  | func (eff : Effect) (args : List Ty) (ret : Ty)

/-- A substitution binding metavariables to types (triangular form). -/
abbrev Subst := List (Nat × Ty)

/-- Follow metavariable bindings at the head of a type. -/
def walk : Nat → Subst → Ty → Ty
  | 0, _, t => t
  | fuel + 1, s, .mvar n =>
    match s.lookup n with
    | some t => walk fuel s t
    | none => .mvar n
  | _, _, t => t

/-- Apply a substitution deeply to a type. -/
def applySubst : Nat → Subst → Ty → Ty
  | 0, _, t => t
  | fuel + 1, s, t =>
    match t with
    | .mvar n =>
      match s.lookup n with
      | some t' => applySubst fuel s t'
      | none => .mvar n
    | .tuple ts => .tuple (ts.map (applySubst fuel s))
    | .lstTy t' => .lstTy (applySubst fuel s t')
    | .data n as => .data n (as.map (applySubst fuel s))
    | .func e as r => .func e (as.map (applySubst fuel s)) (applySubst fuel s r)
    | t' => t'

/-- Metavariables occurring in a type. -/
def mvarsOf : Nat → Ty → List Nat
  | 0, _ => []
  | fuel + 1, t =>
    match t with
    | .mvar n => [n]
    | .tuple ts => ts.flatMap (mvarsOf fuel)
    | .lstTy t' => mvarsOf fuel t'
    | .data _ as => as.flatMap (mvarsOf fuel)
    | .func _ as r => as.flatMap (mvarsOf fuel) ++ mvarsOf fuel r
    | _ => []

/-- Standard fuel for type-sized recursions. -/
def tyFuel : Nat := 1000

/-- Occurs check: does metavariable `n` occur in `t` under `s`? -/
def occurs (s : Subst) (n : Nat) (t : Ty) : Bool :=
  (mvarsOf tyFuel (applySubst tyFuel s t)).contains n

mutual

/-- Modelled from the spec: unification of the missing type inferencer.
Identical atoms unify; tuples pointwise with equal arity; lists on the
element; data applications on head and arguments; function types on
effect, arguments and return type; metavariables bind with an occurs
check; rigid scheme variables unify only with themselves. -/
def unifyF : Nat → Subst → Ty → Ty → Except String Subst
  | 0, _, _, _ => .error "unification recursion limit"
  | fuel + 1, s, a, b =>
    let a' := walk tyFuel s a
    let b' := walk tyFuel s b
    match a', b' with
    | .mvar n, .mvar m => if n = m then .ok s else .ok ((n, Ty.mvar m) :: s)
    | .mvar n, t => if occurs s n t then .error "occurs check" else .ok ((n, t) :: s)
    | t, .mvar n => if occurs s n t then .error "occurs check" else .ok ((n, t) :: s)
    | .int, .int => .ok s
    | .bool, .bool => .ok s
    | .char, .char => .ok s
    | .str, .str => .ok s
    | .tvar x, .tvar y => if x = y then .ok s else .error "type mismatch"
    | .tuple ts, .tuple us =>
      if ts.length = us.length then unifyL fuel s ts us else .error "tuple arity mismatch"
    | .lstTy t, .lstTy u => unifyF fuel s t u
    | .data n as, .data m bs =>
      if n = m && as.length = bs.length then unifyL fuel s as bs
      else .error "type mismatch"
    | .func e1 as r1, .func e2 bs r2 =>
      if e1 = e2 then
        if as.length = bs.length then
          match unifyL fuel s as bs with
          | .ok s' => unifyF fuel s' r1 r2
          | .error m => .error m
        else .error "function arity mismatch"
      else .error "effect mismatch"
    | _, _ => .error "type mismatch"

/-- Pointwise unification of two lists of types. -/
def unifyL : Nat → Subst → List Ty → List Ty → Except String Subst
  | 0, _, _, _ => .error "unification recursion limit"
  | _ + 1, s, [], [] => .ok s
  | fuel + 1, s, t :: ts, u :: us =>
    match unifyF fuel s t u with
    | .ok s' => unifyL fuel s' ts us
    | .error m => .error m
  | _ + 1, _, _, _ => .error "arity mismatch"

end

/-- Substitute rigid scheme variables by types (used for instantiation). -/
def substTVars (m : List (String × Ty)) : Nat → Ty → Ty
  | 0, t => t
  | fuel + 1, t =>
    match t with
    | .tvar s => (m.lookup s).getD (.tvar s)
    | .tuple ts => .tuple (ts.map (substTVars m fuel))
    | .lstTy t' => .lstTy (substTVars m fuel t')
    | .data n as => .data n (as.map (substTVars m fuel))
    | .func e as r => .func e (as.map (substTVars m fuel)) (substTVars m fuel r)
    | t' => t'

/-- Rigid scheme variables occurring in a type, in first-occurrence order. -/
def tvarsOf : Nat → Ty → List String
  | 0, _ => []
  | fuel + 1, t =>
    match t with
    | .tvar s => [s]
    | .tuple ts => ts.flatMap (tvarsOf fuel)
    | .lstTy t' => tvarsOf fuel t'
    | .data _ as => as.flatMap (tvarsOf fuel)
    | .func _ as r => as.flatMap (tvarsOf fuel) ++ tvarsOf fuel r
    | _ => []

/-- Deduplicate keeping the first occurrence. -/
def dedup : List String → List String → List String
  | [], _ => []
  | s :: rest, seen =>
    if seen.contains s then dedup rest seen else s :: dedup rest (s :: seen)

/-- A generalized type scheme of a top-level function: quantified variables,
effect, argument types and return type. -/
structure Scheme where
  vars : List String
  eff : Effect
  args : List Ty
  ret : Ty

/-- A top-level function definition held by the context. -/
structure FunDef where
  name : String
  params : List String
  scheme : Scheme
  body : Expr
  pos : Pos

/-- A data constructor: its data type's name and parameters, and its
field types (over the data parameters as rigid variables). -/
structure CtorDef where
  dataName : String
  dataParams : List String
  fields : List Ty

/-- Modelled from the spec: the elaborated `Context` of the missing
`semantics` module: data types, constructors, top-level bindings and the
host-callback slot. -/
structure Context where
  types : List (String × Nat)
  constructors : List (String × CtorDef)
  bindings : List (String × FunDef)
  callback : Option (Int → Int → Int → Option Int)

/-- `set_callback` from `src/lib.rs`: replace the host callback slot. -/
def set_callback (ctx : Context) (f : Int → Int → Int → Option Int) : Context :=
  { ctx with callback := some f }

/-- Is the first character of a name an upper-case letter? -/
def headUpper (s : String) : Bool :=
  match s.data with
  | c :: _ => c.isUpper
  | [] => false

/-- Is the first character of a name a lower-case letter? -/
def headLower (s : String) : Bool :=
  match s.data with
  | c :: _ => c.isLower
  | [] => false

/-- Parse the type sub-grammar out of an expression. -/
def tyFromExpr : Nat → Expr → Except LispErr Ty
  | 0, e => .error ⟨"type recursion limit", posOf e⟩
  | fuel + 1, e =>
    match e with
    | .id "Int" _ => .ok .int
    | .id "Bool" _ => .ok .bool
    | .id "Char" _ => .ok .char
    | .id "String" _ => .ok .str
    | .id s p =>
      if headLower s then .ok (.tvar s)
      else if headUpper s then .ok (.data s [])
      else .error ⟨"malformed type", p⟩
    | .tuple es _ => do
      let ts ← es.mapM (tyFromExpr fuel)
      .ok (.tuple ts)
    | .quote q p =>
      match q with
      | .lst [t] _ => do
        let t' ← tyFromExpr fuel t
        .ok (.lstTy t')
      | _ => .error ⟨"malformed list type", p⟩
    | .lst (.id effName _ :: rest) p =>
      if effName = "Pure" || effName = "IO" then
        match rest with
        | [.lst (.id "->" _ :: arrowRest) _] =>
          match arrowRest with
          | [.lst argEs _, retE] => do
            let args ← argEs.mapM (tyFromExpr fuel)
            let ret ← tyFromExpr fuel retE
            .ok (.func (if effName = "Pure" then .pure else .io) args ret)
          | _ => .error ⟨"malformed function type", p⟩
        | _ => .error ⟨"malformed function type", p⟩
      else if headUpper effName then do
        let args ← rest.mapM (tyFromExpr fuel)
        .ok (.data effName args)
      else .error ⟨"malformed type", p⟩
    | .lst _ p => .error ⟨"malformed type", p⟩
    | _ => .error ⟨"malformed type", posOf e⟩

/-- Kind check: every type reference resolves to a built-in, an in-scope
parameter, or a declared data name applied to the right number of
arguments. -/
def checkKind (types : List (String × Nat)) (scope : List String) (p : Pos) :
    Nat → Ty → Except LispErr Unit
  | 0, _ => .error ⟨"kind recursion limit", p⟩
  | fuel + 1, t =>
    match t with
    | .tvar s => if scope.contains s then .ok () else .error ⟨"unbound type variable", p⟩
    | .data n as =>
      match types.lookup n with
      | some ar =>
        if as.length = ar then
          as.forM (checkKind types scope p fuel)
        else .error ⟨"ill-kinded data application", p⟩
      | none => .error ⟨"undefined type", p⟩
    | .tuple ts => ts.forM (checkKind types scope p fuel)
    | .lstTy t' => checkKind types scope p fuel t'
    | .func _ as r => do
      as.forM (checkKind types scope p fuel)
      checkKind types scope p fuel r
    | _ => .ok ()

/-- Parse a declared scheme `(Effect (-> (Args) Ret))`; its free lowercase
names become the quantified variables. -/
def parseScheme (e : Expr) : Except LispErr Scheme := do
  let t ← tyFromExpr tyFuel e
  match t with
  | .func eff args ret =>
    let vars := dedup ((args.flatMap (tvarsOf tyFuel)) ++ tvarsOf tyFuel ret) []
    .ok ⟨vars, eff, args, ret⟩
  | _ => .error ⟨"malformed scheme", posOf e⟩

/-- State of the type-inference monad: fresh-variable counter and current
substitution. -/
structure TCState where
  fresh : Nat
  subst : Subst

/-- The type-inference monad: state plus typing errors. -/
abbrev TCM (α : Type) := TCState → Except LispErr (α × TCState)

instance : Monad TCM where
  pure a := fun s => .ok (a, s)
  bind m f := fun s =>
    match m s with
    | .ok (a, s') => f a s'
    | .error e => .error e

/-- Raise a typing error. -/
def tcErr (msg : String) (p : Pos) : TCM α := fun _ => .error ⟨msg, p⟩

/-- Allocate a fresh unification metavariable. -/
def freshMvar : TCM Ty := fun s => .ok (.mvar s.fresh, ⟨s.fresh + 1, s.subst⟩)

/-- Allocate one fresh metavariable per element. -/
def freshMvars (n : Nat) : TCM (List Ty) :=
  (List.range n).mapM (fun _ => freshMvar)

/-- The current substitution. -/
def getSubstTC : TCM Subst := fun s => .ok (s.subst, s)

/-- Unify two types, reporting failures at the given position. -/
def unifyAt (p : Pos) (a b : Ty) : TCM Unit := fun s =>
  match unifyF tyFuel s.subst a b with
  | .ok sub => .ok ((), ⟨s.fresh, sub⟩)
  | .error m => .error ⟨m, p⟩

/-- Instantiate a scheme with fresh metavariables, yielding a function type. -/
def instantiateScheme (sch : Scheme) : TCM Ty := do
  let αs ← freshMvars sch.vars.length
  let m := sch.vars.zip αs
  pure (.func sch.eff (sch.args.map (substTVars m tyFuel)) (substTVars m tyFuel sch.ret))

/-- Instantiate a constructor for use as an expression: a nullary
constructor is a value of its data type, otherwise a pure function from
its fields to the data type. -/
def instantiateCtor (c : CtorDef) : TCM Ty := do
  let αs ← freshMvars c.dataParams.length
  let m := c.dataParams.zip αs
  if c.fields.isEmpty then
    pure (.data c.dataName αs)
  else
    pure (.func .pure (c.fields.map (substTVars m tyFuel)) (.data c.dataName αs))

/-- Fixed schemes of the built-in primitives. -/
def builtinScheme (s : String) : Option Scheme :=
  if s = "+" || s = "-" || s = "*" || s = "/" || s = "mod" || s = "pow"
      || s = "band" || s = "bor" || s = "bxor" then
    some ⟨[], .pure, [.int, .int], .int⟩
  else if s = "sqrt" then
    some ⟨[], .pure, [.int], .data "Option" [.int]⟩
  else if s = "<" || s = "<=" || s = ">" || s = ">=" || s = "=" then
    some ⟨[], .pure, [.int, .int], .bool⟩
  else if s = "call-rust" then
    some ⟨[], .io, [.int, .int, .int], .data "Option" [.int]⟩
  else if s = "Cons" then
    some ⟨["a"], .pure, [.tvar "a", .lstTy (.tvar "a")], .lstTy (.tvar "a")⟩
  else none

/-- Resolve an identifier's type: lexical environment, then top-level
bindings, then built-ins, then constructors. -/
def lookupIdTy (ctx : Context) (env : List (String × Ty)) (s : String) (p : Pos) : TCM Ty :=
  match env.lookup s with
  | some t => pure t
  | none =>
    match ctx.bindings.lookup s with
    | some fd => instantiateScheme fd.scheme
    | none =>
      if s = "Nil" then do
        let α ← freshMvar
        pure (.lstTy α)
      else
        match builtinScheme s with
        | some sch => instantiateScheme sch
        | none =>
          match ctx.constructors.lookup s with
          | some c => instantiateCtor c
          | none => tcErr ("undefined identifier " ++ s) p

/-- Check a pattern against a scrutinee type, producing the variables it
binds.  Patterns: literals, wildcard, binder, tuple, `Nil`, `Cons`, and
declared constructors. -/
def checkPat (ctx : Context) : Nat → Expr → Ty → TCM (List (String × Ty))
  | 0, pe, _ => tcErr "pattern recursion limit" (posOf pe)
  | fuel + 1, pe, t =>
    match pe with
    | .num _ p => do
      unifyAt p t .int
      pure []
    | .boolv _ p => do
      unifyAt p t .bool
      pure []
    | .chr _ p => do
      unifyAt p t .char
      pure []
    | .strv _ p => do
      unifyAt p t .str
      pure []
    | .id s p =>
      if s = "_" then pure []
      else if s = "Nil" then do
        let α ← freshMvar
        unifyAt p t (.lstTy α)
        pure []
      else
        match ctx.constructors.lookup s with
        | some c =>
          if c.fields.isEmpty then do
            let αs ← freshMvars c.dataParams.length
            unifyAt p t (.data c.dataName αs)
            pure []
          else tcErr "constructor arity mismatch in pattern" p
        | none =>
          if headUpper s then tcErr ("unknown constructor " ++ s) p
          else pure [(s, t)]
    | .tuple ps p => do
      let αs ← freshMvars ps.length
      unifyAt p t (.tuple αs)
      let bss ← (ps.zip αs).mapM (fun pa => checkPat ctx fuel pa.1 pa.2)
      pure bss.flatten
    | .lst (.id cn cp :: ps) p =>
      if cn = "Cons" then
        match ps with
        | [p1, p2] => do
          let α ← freshMvar
          unifyAt p t (.lstTy α)
          let b1 ← checkPat ctx fuel p1 α
          let b2 ← checkPat ctx fuel p2 (.lstTy α)
          pure (b1 ++ b2)
        | _ => tcErr "constructor arity mismatch in pattern" p
      else
        match ctx.constructors.lookup cn with
        | some c =>
          if ps.length = c.fields.length then do
            let αs ← freshMvars c.dataParams.length
            unifyAt p t (.data c.dataName αs)
            let m := c.dataParams.zip αs
            let bss ← (ps.zip c.fields).mapM
              (fun pa => checkPat ctx fuel pa.1 (substTVars m tyFuel pa.2))
            pure bss.flatten
          else tcErr "constructor arity mismatch in pattern" p
        | none => tcErr ("unknown constructor " ++ cn) cp
    | _ => tcErr "invalid pattern" (posOf pe)

/-- Modelled from the spec: Hindley-Milner style type inference with the
effect row, for bodies of the missing `semantics` module.  `eff` is the
declared effect of the enclosing body; every call site's callee effect
must satisfy `Effect.le` against it. -/
def inferE : Nat → Context → List (String × Ty) → Effect → Expr → TCM Ty
  | 0, _, _, _, e => tcErr "inference recursion limit" (posOf e)
  | fuel + 1, ctx, env, eff, e =>
    match e with
    | .num _ _ => pure .int
    | .boolv _ _ => pure .bool
    | .chr _ _ => pure .char
    | .strv _ _ => pure .str
    | .id s p => lookupIdTy ctx env s p
    | .tuple es _ => do
      let ts ← es.mapM (inferE fuel ctx env eff)
      pure (.tuple ts)
    | .quote q p =>
      match q with
      | .lst es _ => do
        let α ← freshMvar
        let ts ← es.mapM (inferE fuel ctx env eff)
        ts.forM (fun t => unifyAt p α t)
        pure (.lstTy α)
      | _ => tcErr "quoted expression is not a list" p
    | .lst [] p => tcErr "empty application" p
    | .lst (f :: args) p =>
      match f with
      | .id "if" _ =>
        match args with
        | [c, th, el] => do
          let tc ← inferE fuel ctx env eff c
          unifyAt (posOf c) tc .bool
          let tt ← inferE fuel ctx env eff th
          let te ← inferE fuel ctx env eff el
          unifyAt p tt te
          pure tt
        | _ => tcErr "malformed if" p
      | .id "lambda" _ =>
        match args with
        | [.lst ps _, body] => do
          let names ← ps.mapM (fun pe =>
            match pe with
            | .id x _ => pure x
            | _ => tcErr "malformed lambda parameter" (posOf pe))
          let αs ← freshMvars names.length
          let bt ← inferE fuel ctx ((names.zip αs) ++ env) .pure body
          pure (.func .pure αs bt)
        | _ => tcErr "malformed lambda" p
      | .id "let" _ =>
        match args with
        | [.lst binds _, body] => do
          let env' ← binds.foldlM (fun acc be =>
            match be with
            | .lst [.id x _, ve] _ => do
              let t ← inferE fuel ctx acc eff ve
              pure ((x, t) :: acc)
            | _ => tcErr "malformed let binding" (posOf be)) env
          inferE fuel ctx env' eff body
        | _ => tcErr "malformed let" p
      | .id "match" _ =>
        match args with
        | scrut :: arm0 :: arms => do
          let ts ← inferE fuel ctx env eff scrut
          let α ← freshMvar
          (arm0 :: arms).forM (fun arm =>
            match arm with
            | .lst [pat, body] ap => do
              let binds ← checkPat ctx fuel pat ts
              let bt ← inferE fuel ctx (binds ++ env) eff body
              unifyAt ap α bt
            | _ => tcErr "malformed match arm" (posOf arm))
          pure α
        | _ => tcErr "malformed match" p
      | _ => do
        let ft ← inferE fuel ctx env eff f
        let ats ← args.mapM (inferE fuel ctx env eff)
        let sub ← getSubstTC
        match walk tyFuel sub ft with
        | .func feff fargs fret =>
          if Effect.le feff eff then
            if fargs.length = ats.length then do
              (fargs.zip ats).forM (fun ab => unifyAt p ab.1 ab.2)
              pure fret
            else tcErr "function arity mismatch" p
          else tcErr "Pure function calls IO" p
        | .mvar n => do
          let ρ ← freshMvar
          unifyAt p (.mvar n) (.func .pure ats ρ)
          pure ρ
        | _ => tcErr "applied expression is not a function" p

/-- Inference fuel: bounds the recursion depth over bodies. -/
def inferFuel : Nat := 10000

/-- A raw `data` declaration before elaboration. -/
structure RawData where
  name : String
  params : List String
  ctors : List (String × List Expr)
  pos : Pos

/-- A raw `defun`/`export` declaration before elaboration. -/
structure RawFun where
  name : String
  params : List String
  schemeE : Expr
  body : Expr
  pos : Pos

/-- Parse a parameter list: a list of identifiers. -/
def parseParams (ps : List Expr) : Except LispErr (List String) :=
  ps.mapM (fun pe =>
    match pe with
    | .id x _ => .ok x
    | _ => .error ⟨"malformed parameter", posOf pe⟩)

/-- Parse a `data` declaration's head and constructors. -/
def parseDataDecl (rest : List Expr) (p : Pos) : Except LispErr RawData := do
  match rest with
  | hd :: ctorEs =>
    let (name, params) ←
      match hd with
      | .id n _ => pure (n, ([] : List String))
      | .lst (.id n _ :: ps) _ => do
        let params ← parseParams ps
        pure (n, params)
      | _ => throw ⟨"malformed data declaration", p⟩
    let ctors ← ctorEs.mapM (fun ce =>
      match ce with
      | .id c _ => pure (c, ([] : List Expr))
      | .lst (.id c _ :: fs) _ => pure (c, fs)
      | _ => throw (⟨"malformed constructor declaration", posOf ce⟩ : LispErr))
    pure ⟨name, params, ctors, p⟩
  | [] => throw ⟨"malformed data declaration", p⟩

/-- Classify the top-level forms: `data`, `defun` and `export` declarations. -/
def classifyTops : List Expr → Except LispErr (List RawData × List RawFun)
  | [] => .ok ([], [])
  | e :: rest => do
    let (ds, fs) ← classifyTops rest
    match e with
    | .lst (.id "data" _ :: dr) p => do
      let d ← parseDataDecl dr p
      pure (d :: ds, fs)
    | .lst (.id kw _ :: dr) p =>
      if kw = "defun" || kw = "export" then
        match dr with
        | [.id name _, .lst paramEs _, schemeE, body] => do
          let params ← parseParams paramEs
          pure (ds, (⟨name, params, schemeE, body, p⟩ : RawFun) :: fs)
        | _ => throw ⟨"malformed function declaration", p⟩
      else throw ⟨"invalid top-level expression", p⟩
    | _ => throw ⟨"invalid top-level expression", posOf e⟩

/-- Register the constructors of all data declarations, rejecting duplicate
constructor names and kind-checking field types. -/
def buildCtors (types : List (String × Nat)) :
    List RawData → List (String × CtorDef) → Except LispErr (List (String × CtorDef))
  | [], acc => .ok acc
  | d :: ds, acc => do
    let acc' ← d.ctors.foldlM (fun acc' c => do
      if (List.lookup c.1 acc').isSome then
        throw (⟨"duplicate constructor " ++ c.1, d.pos⟩ : LispErr)
      else
        let fields ← c.2.mapM (tyFromExpr tyFuel)
        fields.forM (checkKind types d.params d.pos tyFuel)
        pure ((c.1, (⟨d.name, d.params, fields⟩ : CtorDef)) :: acc')) acc
    buildCtors types ds acc'

/-- Elaborate a raw function declaration: parse and kind-check its scheme
and check the parameter count. -/
def buildFunDef (types : List (String × Nat)) (rf : RawFun) : Except LispErr FunDef := do
  let sch ← parseScheme rf.schemeE
  if rf.params.length = sch.args.length then do
    sch.args.forM (checkKind types sch.vars rf.pos tyFuel)
    checkKind types sch.vars rf.pos tyFuel sch.ret
    pure ⟨rf.name, rf.params, sch, rf.body, rf.pos⟩
  else throw ⟨"parameter count mismatch", rf.pos⟩

/-- Type-check one top-level body against its declared scheme: parameters
are bound to the declared argument types (scheme variables rigid), the
body is inferred under the declared effect and unified with the declared
return type. -/
def checkBody (ctx : Context) (fd : FunDef) : Except LispErr Unit :=
  match (do
      let t ← inferE inferFuel ctx (fd.params.zip fd.scheme.args) fd.scheme.eff fd.body
      unifyAt (posOf fd.body) t fd.scheme.ret : TCM Unit) ⟨0, []⟩ with
  | .ok _ => .ok ()
  | .error e => .error e

/-- Modelled from the spec: `semantics::exprs2context` of the missing
`semantics` module.  Collects data declarations, kind-checks, registers
all function signatures, then checks each body in the shared environment. -/
def exprs2context (es : List Expr) : Except LispErr Context := do
  let (ds, fs) ← classifyTops es
  let types := ds.foldl (fun acc d => (d.name, d.params.length) :: acc) []
  let ctors ← buildCtors types ds []
  let fds ← fs.mapM (buildFunDef types)
  let bindings := fds.foldl (fun acc fd => (fd.name, fd) :: acc) []
  let ctx : Context := ⟨types, ctors, bindings, none⟩
  fds.forM (checkBody ctx)
  pure ctx

/-- `typing` from `src/lib.rs`: run semantic analysis and prefix any error
message with `"Typing Error: "`. -/
def typing (exprs : List Expr) : Except LispErr Context :=
  match exprs2context exprs with
  | .ok c => .ok c
  | .error e => .error ⟨"Typing Error: " ++ e.msg, e.pos⟩

/-- Modelled from the spec: the embedded prelude source
(`src/prelude.lisp` is not under `src/`).  It declares `Option` and the
list operations `car`, `cdr`, `map`, `fold`. -/
def preludeText : String := "
(data (Option t)
    (Some t)
    None)

(export car (l) (Pure (-> ('(t)) (Option t)))
    (match l
        ((Cons h _) (Some h))
        (_ None)))

(export cdr (l) (Pure (-> ('(t)) (Option '(t))))
    (match l
        ((Cons _ r) (Some r))
        (_ None)))

(export map (f l) (Pure (-> ((Pure (-> (t) u)) '(t)) '(u)))
    (match l
        (Nil Nil)
        ((Cons h r) (Cons (f h) (map f r)))))

(export fold (f init l) (Pure (-> ((Pure (-> (t u) u)) u '(t)) u))
    (match l
        (Nil init)
        ((Cons h r) (fold f (f h init) r))))
"

/-- `init` from `src/lib.rs`, generalized over the prelude text: parse the
prelude under file id 0, then the user code under file id 1, append the
two forests; wrap either parse error as a `"Syntax Error: "`. -/
def initWith (preludeSrc : String) (code : String) : Except LispErr (List Expr) :=
  match parse preludeSrc FILE_ID_PRELUD with
  | .error e => .error ⟨"Syntax Error: " ++ e.msg, e.pos⟩
  | .ok exprs =>
    match parse code FILE_ID_USER with
    | .ok e2 => .ok (exprs ++ e2)
    | .error e => .error ⟨"Syntax Error: " ++ e.msg, e.pos⟩

/-- `init` from `src/lib.rs`: `initWith` applied to the embedded prelude. -/
def init (code : String) : Except LispErr (List Expr) :=
  initWith preludeText code

/-- Modelled from the spec: runtime values of the missing `runtime`
module.  Lists are built from the constructors `Nil` and `Cons`; `prim`
is a named top-level function, built-in or constructor used as a value. -/
inductive Value where
  | int (n : Int)
  | boolv (b : Bool)
  | chr (c : Char)
  | strv (s : String)
  | ctor (name : String) (args : List Value)
  | tuple (vs : List Value)
  | closure (params : List String) (body : Expr) (env : List (String × Value))
  | prim (name : String)

/-- Decimal rendering of an integer. -/
def intStr (n : Int) : String :=
  if n < 0 then "-" ++ Nat.repr (-n).toNat else Nat.repr n.toNat

/-- The apostrophe as a one-character string. -/
def qs : String := String.singleton qchar

mutual

/-- Canonical surface rendering of a value: integers in decimal, booleans
as `true`/`false`, tuples in brackets, lists as quoted lists, data values
as `(Ctor v…)` or bare `Ctor`, closures opaque. -/
def display : Nat → Value → String
  | 0, _ => "<depth limit>"
  | fuel + 1, v =>
    match v with
    | .int n => intStr n
    | .boolv b => if b then "true" else "false"
    | .chr c => qs ++ String.singleton c ++ qs
    | .strv s => "\"" ++ s ++ "\""
    | .ctor "Nil" [] => qs ++ "()"
    | .ctor "Cons" [h, t] => qs ++ "(" ++ display fuel h ++ displayTail fuel t ++ ")"
    | .ctor c [] => c
    | .ctor c vs => "(" ++ c ++ " " ++ String.intercalate " " (vs.map (display fuel)) ++ ")"
    | .tuple vs => "[" ++ String.intercalate " " (vs.map (display fuel)) ++ "]"
    | .closure _ _ _ => "<closure>"
    | .prim _ => "<closure>"

/-- Render the tail of a list value. -/
def displayTail : Nat → Value → String
  | 0, _ => "<depth limit>"
  | fuel + 1, v =>
    match v with
    | .ctor "Cons" [h, t] => " " ++ display fuel h ++ displayTail fuel t
    | _ => ""

end

/-- Match a pattern against a value, producing its bindings if it matches. -/
def matchPatV (ctx : Context) : Nat → Expr → Value → Option (List (String × Value))
  | 0, _, _ => none
  | fuel + 1, pe, v =>
    match pe with
    | .num n _ =>
      match v with
      | .int m => if n = m then some [] else none
      | _ => none
    | .boolv b _ =>
      match v with
      | .boolv c => if b = c then some [] else none
      | _ => none
    | .chr a _ =>
      match v with
      | .chr b => if a = b then some [] else none
      | _ => none
    | .strv a _ =>
      match v with
      | .strv b => if a = b then some [] else none
      | _ => none
    | .id s _ =>
      if s = "_" then some []
      else if s = "Nil" || (ctx.constructors.lookup s).isSome || headUpper s then
        match v with
        | .ctor c [] => if c = s then some [] else none
        | _ => none
      else some [(s, v)]
    | .tuple ps _ =>
      match v with
      | .tuple vs =>
        if ps.length = vs.length then do
          let bss ← (ps.zip vs).mapM (fun pv => matchPatV ctx fuel pv.1 pv.2)
          some bss.flatten
        else none
      | _ => none
    | .lst (.id cn _ :: ps) _ =>
      match v with
      | .ctor c vs =>
        if cn = c && ps.length = vs.length then do
          let bss ← (ps.zip vs).mapM (fun pv => matchPatV ctx fuel pv.1 pv.2)
          some bss.flatten
        else none
      | _ => none
    | _ => none

/-- Two's-complement bitwise complement on unbounded integers. -/
def intNot (a : Int) : Int := -a - 1

/-- Bits of `a` with the bits of `m` cleared, on naturals. -/
def natAndNot (a m : Nat) : Nat := a - Nat.land a m

/-- Two's-complement bitwise and on unbounded integers. -/
def intLand (a b : Int) : Int :=
  if 0 ≤ a then
    if 0 ≤ b then Int.ofNat (Nat.land a.toNat b.toNat)
    else Int.ofNat (natAndNot a.toNat (-b - 1).toNat)
  else
    if 0 ≤ b then Int.ofNat (natAndNot b.toNat (-a - 1).toNat)
    else -(Int.ofNat (Nat.lor (-a - 1).toNat (-b - 1).toNat)) - 1

/-- Two's-complement bitwise or on unbounded integers. -/
def intLor (a b : Int) : Int := intNot (intLand (intNot a) (intNot b))

/-- Two's-complement bitwise exclusive or on unbounded integers. -/
def intLxor (a b : Int) : Int :=
  if 0 ≤ a then
    if 0 ≤ b then Int.ofNat (Nat.xor a.toNat b.toNat)
    else -(Int.ofNat (Nat.xor a.toNat (-b - 1).toNat)) - 1
  else
    if 0 ≤ b then -(Int.ofNat (Nat.xor (-a - 1).toNat b.toNat)) - 1
    else Int.ofNat (Nat.xor (-a - 1).toNat (-b - 1).toNat)

/-- Evaluate a built-in primitive on already-evaluated arguments.
Arithmetic is arbitrary precision; division and `mod` follow truncated
division semantics; division by zero is a runtime error; `sqrt` of a
negative integer is `None`; `call-rust` consults the host callback. -/
def builtinEval (ctx : Context) (s : String) (vs : List Value) : Except String Value :=
  match s, vs with
  | "+", [.int a, .int b] => .ok (.int (a + b))
  | "-", [.int a, .int b] => .ok (.int (a - b))
  | "*", [.int a, .int b] => .ok (.int (a * b))
  | "/", [.int a, .int b] =>
    if b = 0 then .error "divide by zero" else .ok (.int (Int.tdiv a b))
  | "mod", [.int a, .int b] =>
    if b = 0 then .error "divide by zero" else .ok (.int (Int.tmod a b))
  | "pow", [.int a, .int b] =>
    if b < 0 then .error "pow with negative exponent" else .ok (.int (a ^ b.toNat))
  | "band", [.int a, .int b] => .ok (.int (intLand a b))
  | "bor", [.int a, .int b] => .ok (.int (intLor a b))
  | "bxor", [.int a, .int b] => .ok (.int (intLxor a b))
  | "sqrt", [.int a] =>
    if a < 0 then .ok (.ctor "None" [])
    else .ok (.ctor "Some" [.int (Nat.sqrt a.toNat : Nat)])
  | "<", [.int a, .int b] => .ok (.boolv (decide (a < b)))
  | "<=", [.int a, .int b] => .ok (.boolv (decide (a ≤ b)))
  | ">", [.int a, .int b] => .ok (.boolv (decide (b < a)))
  | ">=", [.int a, .int b] => .ok (.boolv (decide (b ≤ a)))
  | "=", [.int a, .int b] => .ok (.boolv (decide (a = b)))
  | "call-rust", [.int x, .int y, .int z] =>
    match ctx.callback with
    | none => .ok (.ctor "None" [])
    | some f =>
      match f x y z with
      | none => .ok (.ctor "None" [])
      | some n => .ok (.ctor "Some" [.int n])
  | "Cons", [a, b] => .ok (.ctor "Cons" [a, b])
  | _, _ => .error ("invalid built-in application " ++ s)

/-- Resolve an identifier at runtime: lexical environment, then top-level
bindings, then built-ins, then constructors. -/
def lookupIdVal (ctx : Context) (env : List (String × Value)) (s : String) :
    Except String Value :=
  match env.lookup s with
  | some v => .ok v
  | none =>
    match ctx.bindings.lookup s with
    | some _ => .ok (.prim s)
    | none =>
      if s = "Nil" then .ok (.ctor "Nil" [])
      else if (builtinScheme s).isSome then .ok (.prim s)
      else
        match ctx.constructors.lookup s with
        | some c =>
          if c.fields.isEmpty then .ok (.ctor s []) else .ok (.prim s)
        | none => .error ("undefined identifier " ++ s)

mutual

/-- Modelled from the spec: the strict, left-to-right, environment-passing
evaluator of the missing `runtime` module.  Fuel is the cooperative step
limit; exhausting it is a runtime error. -/
def evalE : Nat → Context → List (String × Value) → Expr → Except String Value
  | 0, _, _, _ => .error "step limit exceeded"
  | fuel + 1, ctx, env, e =>
    match e with
    | .num n _ => .ok (.int n)
    | .boolv b _ => .ok (.boolv b)
    | .chr c _ => .ok (.chr c)
    | .strv s _ => .ok (.strv s)
    | .id s _ => lookupIdVal ctx env s
    | .tuple es _ => do
      let vs ← es.mapM (evalE fuel ctx env)
      .ok (.tuple vs)
    | .quote q _ =>
      match q with
      | .lst es _ => do
        let vs ← es.mapM (evalE fuel ctx env)
        .ok (vs.foldr (fun v acc => .ctor "Cons" [v, acc]) (.ctor "Nil" []))
      | _ => .error "quoted expression is not a list"
    | .lst [] _ => .error "empty application"
    | .lst (f :: args) _ =>
      let fname : String :=
        match f with
        | .id s _ => s
        | _ => ""
      if fname = "if" then
        match args with
        | [c, th, el] =>
          match evalE fuel ctx env c with
          | .ok (.boolv true) => evalE fuel ctx env th
          | .ok (.boolv false) => evalE fuel ctx env el
          | .ok _ => .error "condition is not a boolean"
          | .error m => .error m
        | _ => .error "malformed if"
      else if fname = "lambda" then
        match args with
        | [.lst ps _, body] =>
          match parseParams ps with
          | .ok names => .ok (.closure names body env)
          | .error _ => .error "malformed lambda"
        | _ => .error "malformed lambda"
      else if fname = "let" then
        match args with
        | [.lst binds _, body] => do
          let env' ← binds.foldlM (fun acc be =>
            match be with
            | .lst [.id x _, ve] _ => do
              let v ← evalE fuel ctx acc ve
              pure ((x, v) :: acc)
            | _ => .error "malformed let binding") env
          evalE fuel ctx env' body
        | _ => .error "malformed let"
      else if fname = "match" then
        match args with
        | scrut :: arms => do
          let v ← evalE fuel ctx env scrut
          tryArms fuel ctx env v arms
        | _ => .error "malformed match"
      else do
        let fv ← evalE fuel ctx env f
        let vs ← args.mapM (evalE fuel ctx env)
        applyV fuel ctx fv vs

/-- Try match arms top to bottom; the first matching pattern's body is
evaluated in the extended environment. -/
def tryArms : Nat → Context → List (String × Value) → Value → List Expr →
    Except String Value
  | 0, _, _, _, _ => .error "step limit exceeded"
  | _ + 1, _, _, _, [] => .error "non-exhaustive match"
  | fuel + 1, ctx, env, v, arm :: rest =>
    match arm with
    | .lst [pat, body] _ =>
      match matchPatV ctx inferFuel pat v with
      | some binds => evalE fuel ctx (binds ++ env) body
      | none => tryArms fuel ctx env v rest
    | _ => .error "malformed match arm"

/-- Apply a function value: a closure extends its captured environment; a
named primitive dispatches to a top-level binding, a built-in or a
constructor. -/
def applyV : Nat → Context → Value → List Value → Except String Value
  | 0, _, _, _ => .error "step limit exceeded"
  | fuel + 1, ctx, fv, vs =>
    match fv with
    | .closure params body cenv =>
      if params.length = vs.length then
        evalE fuel ctx ((params.zip vs) ++ cenv) body
      else .error "arity mismatch"
    | .prim s =>
      match ctx.bindings.lookup s with
      | some fd =>
        if fd.params.length = vs.length then
          evalE fuel ctx (fd.params.zip vs) fd.body
        else .error "arity mismatch"
      | none =>
        if (builtinScheme s).isSome then builtinEval ctx s vs
        else
          match ctx.constructors.lookup s with
          | some _ => .ok (.ctor s vs)
          | none => .error ("undefined identifier " ++ s)
    | _ => .error "applied value is not a function"

end

/-- Evaluation step limit for one top-level expression. -/
def evalFuel : Nat := 10000000

/-- Display depth limit. -/
def dispFuel : Nat := 100000

/-- Type-check one expression passed to `eval` against the context, under
the top-level effect `IO`. -/
def typeCheckTop (ctx : Context) (e : Expr) : Except LispErr Ty :=
  match inferE inferFuel ctx [] .io e ⟨0, []⟩ with
  | .ok (t, _) => .ok t
  | .error er => .error er

/-- Type-check every expression passed to `eval`. -/
def typeCheckTops (ctx : Context) (es : List Expr) : Except LispErr Unit :=
  es.forM (fun e => do
    let _ ← typeCheckTop ctx e
    pure ())

/-- Evaluate one type-checked top-level expression to its display string or
its runtime error message. -/
def evalTop (ctx : Context) (e : Expr) : Except String String :=
  match evalE evalFuel ctx [] e with
  | .ok v => .ok (display dispFuel v)
  | .error m => .error m

/-- Modelled from the spec: `runtime::eval` of the missing `runtime`
module.  Parse the code under file id 2, type-check every top-level
expression against the context, then evaluate each independently,
emitting one result entry per top-level expression in order. -/
def evalRT (code : String) (ctx : Context) : Except LispErr (List (Except String String)) :=
  match parse code FILE_ID_EVAL with
  | .error pe => .error ⟨"Syntax Error: " ++ pe.msg, pe.pos⟩
  | .ok es =>
    match typeCheckTops ctx es with
    | .error te => .error ⟨"Typing Error: " ++ te.msg, te.pos⟩
    | .ok _ => .ok (es.map (evalTop ctx))

/-- `eval` from `src/lib.rs`: delegates to `runtime::eval`. -/
def eval (code : String) (ctx : Context) : Except LispErr (List (Except String String)) :=
  evalRT code ctx

/-- The full front end: `init` then `typing`. -/
def pipeline (code : String) : Except LispErr Context :=
  match init code with
  | .ok es => typing es
  | .error e => .error e

instance {ε α : Type} [DecidableEq ε] [DecidableEq α] : DecidableEq (Except ε α) := fun a b =>
  match a, b with
  | .ok x, .ok y =>
    match decEq x y with
    | isTrue h => isTrue (by rw [h])
    | isFalse h => isFalse (by intro hh; cases hh; exact h rfl)
  | .error x, .error y =>
    match decEq x y with
    | isTrue h => isTrue (by rw [h])
    | isFalse h => isFalse (by intro hh; cases hh; exact h rfl)
  | .ok _, .error _ => isFalse (by intro hh; cases hh)
  | .error _, .ok _ => isFalse (by intro hh; cases hh)

mutual

/-- All positions attached to the nodes of an expression. -/
def positionsOf : Expr → List Pos
  | .num _ p => [p]
  | .boolv _ p => [p]
  | .id _ p => [p]
  | .lst es p => p :: positionsOfList es
  | .tuple es p => p :: positionsOfList es
  | .quote e p => p :: positionsOf e
  | .chr _ p => [p]
  | .strv _ p => [p]

/-- All positions attached to the nodes of a forest. -/
def positionsOfList : List Expr → List Pos
  | [] => []
  | e :: es => positionsOf e ++ positionsOfList es

end


/-- All positions in a `parseExpr` result carry the parser's file id. -/
def eresOkE (fid : Nat) (r : Except SynErr (Expr × PState)) : Prop :=
  match r with
  | .ok (e, _) => ∀ q ∈ positionsOf e, q.file_id = fid
  | .error er => er.pos.file_id = fid

/-- All positions in a `parseMany` result carry the parser's file id. -/
def eresOkM (fid : Nat) (r : Except SynErr (List Expr × PState)) : Prop :=
  match r with
  | .ok (es, _) => ∀ q ∈ positionsOfList es, q.file_id = fid
  | .error er => er.pos.file_id = fid

/-- All positions in a `parseAll` result carry the parser's file id. -/
def eresOkA (fid : Nat) (r : Except SynErr (List Expr)) : Prop :=
  match r with
  | .ok es => ∀ q ∈ positionsOfList es, q.file_id = fid
  | .error er => er.pos.file_id = fid

/-- A context with no declarations and no callback. -/
def emptyCtx : Context := ⟨[], [], [], none⟩

/-- The context obtained from `init ""` and `typing`: prelude only. -/
def ctx0 : Context :=
  match pipeline "" with
  | .ok c => c
  | .error _ => emptyCtx

/-- The user code of the `factorial` scenario (`tests::prelude` in
`src/lib.rs`). -/
def factCode : String := "
(export factorial (n) (Pure (-> (Int) Int))
    (fact n 1))

(defun fact (n total) (Pure (-> (Int Int) Int))
    (if (<= n 0)
        total
        (fact (- n 1) (* n total))))"

/-- The context obtained from `init factCode` and `typing`. -/
def ctx6 : Context :=
  match pipeline factCode with
  | .ok c => c
  | .error _ => emptyCtx

/-- The declaration whose `Pure` body calls `call-rust` (rejected). -/
def pureDecl : String := "(export f () (Pure (-> () Int)) (call-rust 1 2 3))"

/-- The same declaration with effect `IO` and return `(Option Int)`
(accepted; `tests::callback` in `src/lib.rs`). -/
def ioDecl : String := "(export f () (IO (-> () (Option Int))) (call-rust 1 2 3))"

/-- Tail-recursive reference factorial with accumulator. -/
def factAcc : Nat → Nat → Nat
  | 0, acc => acc
  | n + 1, acc => factAcc n ((n + 1) * acc)


/-- The parsed body of the helper `fact` in `factCode` (file id 1). -/
def factBody : Expr :=
  .lst [.id "if" ⟨1, 5, 5⟩,
    .lst [.id "<=" ⟨1, 5, 9⟩, .id "n" ⟨1, 5, 12⟩, .num 0 ⟨1, 5, 14⟩] ⟨1, 5, 8⟩,
    .id "total" ⟨1, 6, 8⟩,
    .lst [.id "fact" ⟨1, 7, 9⟩,
      .lst [.id "-" ⟨1, 7, 15⟩, .id "n" ⟨1, 7, 17⟩, .num 1 ⟨1, 7, 19⟩] ⟨1, 7, 14⟩,
      .lst [.id "*" ⟨1, 7, 23⟩, .id "n" ⟨1, 7, 25⟩, .id "total" ⟨1, 7, 27⟩] ⟨1, 7, 22⟩] ⟨1, 7, 8⟩] ⟨1, 5, 4⟩

/-- The parsed body of `factorial` in `factCode` (file id 1). -/
def factorialBody : Expr :=
  .lst [.id "fact" ⟨1, 2, 5⟩, .id "n" ⟨1, 2, 10⟩, .num 1 ⟨1, 2, 12⟩] ⟨1, 2, 4⟩

/-- The expression `(factorial 2000)` as parsed under file id 2. -/
def topFact2000 : Expr :=
  .lst [.id "factorial" ⟨2, 0, 1⟩, .num 2000 ⟨2, 0, 11⟩] ⟨2, 0, 0⟩

/-- Reference semantics of the `fact` accumulator loop over the integers. -/
def facInt : Nat → Int → Int
  | 0, t => t
  | k + 1, t => facInt k (((k + 1 : Nat) : Int) * t)

/-- The first expression of `"(+ 1 2) (/ 1 0)"` as parsed under file id 2. -/
def e4a : Expr :=
  .lst [.id "+" ⟨2, 0, 1⟩, .num 1 ⟨2, 0, 3⟩, .num 2 ⟨2, 0, 5⟩] ⟨2, 0, 0⟩

/-- The second expression of `"(+ 1 2) (/ 1 0)"` as parsed under file id 2. -/
def e4b : Expr :=
  .lst [.id "/" ⟨2, 0, 9⟩, .num 1 ⟨2, 0, 11⟩, .num 0 ⟨2, 0, 13⟩] ⟨2, 0, 8⟩

end BLisp

set_option maxRecDepth 4000000

namespace BLisp

theorem exprSize_pos (a : Expr) : 1 ≤ exprSize a := by
  cases a <;> simp [exprSize]

theorem eqb_sound (n : Nat) :
    (∀ a, exprSize a ≤ n → ∀ b, eqbE a b = true → a = b) ∧
    (∀ as, exprSizeL as ≤ n → ∀ bs, eqbL as bs = true → as = bs) := by
  induction n with
  | zero =>
    constructor
    · intro a ha
      exact absurd (le_trans (exprSize_pos a) ha) (by omega)
    · intro as ha bs hb
      cases as with
      | nil => cases bs with
        | nil => rfl
        | cons f fs => simp [eqbL] at hb
      | cons e es =>
        have := exprSize_pos e
        simp [exprSizeL] at ha
  | succ n ih =>
    constructor
    · intro a ha b hb
      cases a <;> cases b <;>
        simp only [eqbE, Bool.and_eq_true, decide_eq_true_eq, reduceCtorEq] at hb
      case num.num => exact hb.1 ▸ hb.2 ▸ rfl
      case boolv.boolv => exact hb.1 ▸ hb.2 ▸ rfl
      case id.id => exact hb.1 ▸ hb.2 ▸ rfl
      case lst.lst es p fs q =>
        have hes : exprSizeL es ≤ n := by simp [exprSize] at ha; omega
        rw [ih.2 es hes fs hb.1, hb.2]
      case tuple.tuple es p fs q =>
        have hes : exprSizeL es ≤ n := by simp [exprSize] at ha; omega
        rw [ih.2 es hes fs hb.1, hb.2]
      case quote.quote e p f q =>
        have he : exprSize e ≤ n := by simp [exprSize] at ha; omega
        rw [ih.1 e he f hb.1, hb.2]
      case chr.chr => exact hb.1 ▸ hb.2 ▸ rfl
      case strv.strv => exact hb.1 ▸ hb.2 ▸ rfl
    · intro as ha bs hb
      cases as with
      | nil =>
        cases bs with
        | nil => rfl
        | cons f fs => simp [eqbL] at hb
      | cons e es =>
        cases bs with
        | nil => simp [eqbL] at hb
        | cons f fs =>
          simp only [eqbL, Bool.and_eq_true] at hb
          have h1 : exprSize e ≤ n := by
            simp [exprSizeL] at ha; omega
          have h2 : exprSizeL es ≤ n := by
            have := exprSize_pos e
            simp [exprSizeL] at ha; omega
          rw [ih.1 e h1 f hb.1, ih.2 es h2 fs hb.2]

theorem eqb_refl (n : Nat) :
    (∀ a, exprSize a ≤ n → eqbE a a = true) ∧
    (∀ as, exprSizeL as ≤ n → eqbL as as = true) := by
  induction n with
  | zero =>
    constructor
    · intro a ha
      exact absurd (le_trans (exprSize_pos a) ha) (by omega)
    · intro as ha
      cases as with
      | nil => rfl
      | cons e es =>
        have := exprSize_pos e
        simp [exprSizeL] at ha
  | succ n ih =>
    constructor
    · intro a ha
      cases a <;>
        simp only [eqbE, Bool.and_eq_true, decide_eq_true_eq, and_true, true_and,
          eq_self_iff_true, and_self]
      case lst es p =>
        have hes : exprSizeL es ≤ n := by simp [exprSize] at ha; omega
        exact ih.2 es hes
      case tuple es p =>
        have hes : exprSizeL es ≤ n := by simp [exprSize] at ha; omega
        exact ih.2 es hes
      case quote e p =>
        have he : exprSize e ≤ n := by simp [exprSize] at ha; omega
        exact ih.1 e he
    · intro as ha
      cases as with
      | nil => rfl
      | cons e es =>
        have h1 : exprSize e ≤ n := by simp [exprSizeL] at ha; omega
        have h2 : exprSizeL es ≤ n := by
          have := exprSize_pos e
          simp [exprSizeL] at ha; omega
        simp only [eqbL, Bool.and_eq_true]
        exact ⟨ih.1 e h1, ih.2 es h2⟩

instance : DecidableEq Expr := fun a b =>
  decidable_of_iff (eqbE a b = true)
    ⟨(eqb_sound (exprSize a)).1 a le_rfl b,
     fun h => h ▸ (eqb_refl (exprSize a)).1 a le_rfl⟩

theorem factAcc_eq (n : Nat) : ∀ acc, factAcc n acc = acc * Nat.factorial n := by
  induction n with
  | zero => intro acc; simp [factAcc, Nat.factorial]
  | succ n ih =>
    intro acc
    rw [factAcc, ih, Nat.factorial_succ]
    ring

/-- C1: the declaration `(export f () (Pure (-> () Int)) (call-rust 1 2 3))`
parses under `init` but is rejected by `typing` with a typing error, while
the `IO` variant with return `(Option Int)` passes `typing`: a `Pure` body
may not call `call-rust`, whose effect is `IO`. -/
theorem claim1_effect_discipline :
    (init pureDecl).isOk = true ∧
    (match pipeline pureDecl with
      | .error e => e.msg.startsWith "Typing Error: "
      | .ok _ => false) = true ∧
    (pipeline ioDecl).isOk = true := by
  refine ⟨?_, ?_, ?_⟩
  · decide!
  · decide!
  · decide!

/-- C2: `init ""` succeeds, and `typing` of the forest it returns (the
embedded prelude alone) succeeds as well. -/
theorem claim2_prelude_wellformed :
    (match init "" with
      | .ok es => (typing es).isOk
      | .error _ => false) = true := by
  decide!

/-- C5: after `init ""` and `typing`, dividing by zero is a per-expression
runtime error that leaves the other entries intact, and `(sqrt -1)`
evaluates to the display string `None`. -/
theorem claim5_div_zero_sqrt :
    (pipeline "").isOk = true ∧
    eval "(/ 10 0) (+ 1 2)" ctx0 = .ok [.error "divide by zero", .ok "3"] ∧
    eval "(sqrt -1)" ctx0 = .ok [.ok "None"] := by
  refine ⟨?_, ?_, ?_⟩
  · decide!
  · decide!
  · decide!

/-- C6: with `factorial` declared via `(fact n 1)` and a tail-recursive
helper, `eval "(factorial 10)"` gives `3628800` and
`eval "(factorial 2000)"` gives the exact decimal representation of
`2000!`, a 5736-digit integer: arithmetic is arbitrary precision. -/

theorem bind_ok {ε α β : Type} (a : α) (f : α → Except ε β) :
    (Except.ok a : Except ε α) >>= f = f a := rfl

theorem pure_eq_ok {ε α : Type} (a : α) : (pure a : Except ε α) = .ok a := rfl

theorem mapM_loop_nil {ε α β : Type} (f : α → Except ε β) (acc : List β) :
    List.mapM.loop f [] acc = .ok acc.reverse := rfl

theorem mapM_loop_cons {ε α β : Type} (f : α → Except ε β) (a : α) (as : List α) (acc : List β) :
    List.mapM.loop f (a :: as) acc = f a >>= fun b => List.mapM.loop f as (b :: acc) := rfl

theorem builtinEval_le (ctx : Context) (a b : Int) :
    builtinEval ctx "<=" [.int a, .int b] = .ok (.boolv (decide (a ≤ b))) := rfl

theorem builtinEval_sub (ctx : Context) (a b : Int) :
    builtinEval ctx "-" [.int a, .int b] = .ok (.int (a - b)) := rfl

theorem builtinEval_mul (ctx : Context) (a b : Int) :
    builtinEval ctx "*" [.int a, .int b] = .ok (.int (a * b)) := rfl

set_option maxHeartbeats 2000000

theorem iterGen (ctx : Context) (fd : FunDef)
    (hfd : ctx.bindings.lookup "fact" = some fd)
    (hp : fd.params = ["n", "total"]) (hb : fd.body = factBody)
    (hle : ctx.bindings.lookup "<=" = none)
    (hsub : ctx.bindings.lookup "-" = none)
    (hmul : ctx.bindings.lookup "*" = none)
    (F : Nat) (nv total : Int) :
    evalE (F + 4) ctx [("n", .int nv), ("total", .int total)] factBody =
      if nv ≤ 0 then .ok (.int total)
      else evalE (F + 1) ctx [("n", .int (nv - 1)), ("total", .int (nv * total))] factBody := by
  by_cases h : nv ≤ 0
  · rw [if_pos h]
    simp [factBody, evalE, lookupIdVal, List.lookup, applyV,
      builtinScheme, bind_ok, pure_eq_ok, mapM_loop_cons, mapM_loop_nil,
      builtinEval_le, builtinEval_sub, builtinEval_mul,
      hfd, hp, hb, hle, hsub, hmul, decide_eq_true h]
  · rw [if_neg h]
    simp [factBody, evalE, lookupIdVal, List.lookup, applyV,
      builtinScheme, bind_ok, pure_eq_ok, mapM_loop_cons, mapM_loop_nil,
      builtinEval_le, builtinEval_sub, builtinEval_mul,
      hfd, hp, hb, hle, hsub, hmul, decide_eq_false h]

theorem simFact (ctx : Context) (fd : FunDef)
    (hfd : ctx.bindings.lookup "fact" = some fd)
    (hp : fd.params = ["n", "total"]) (hb : fd.body = factBody)
    (hle : ctx.bindings.lookup "<=" = none)
    (hsub : ctx.bindings.lookup "-" = none)
    (hmul : ctx.bindings.lookup "*" = none) :
    ∀ (k m : Nat) (total : Int),
    evalE (3 * k + m + 4) ctx [("n", .int (k : Int)), ("total", .int total)] factBody
      = .ok (.int (facInt k total)) := by
  intro k
  induction k with
  | zero =>
    intro m total
    have h0 : 3 * 0 + m + 4 = m + 4 := by ring
    rw [h0, iterGen ctx fd hfd hp hb hle hsub hmul m,
      if_pos (by simp : ((0 : Nat) : Int) ≤ 0)]
    simp [facInt]
  | succ k ih =>
    intro m total
    have h1 : 3 * (k + 1) + m + 4 = (3 * k + m + 3) + 4 := by ring
    have hpos : ¬(((k + 1 : Nat) : Int) ≤ 0) := by push_cast; omega
    rw [h1, iterGen ctx fd hfd hp hb hle hsub hmul (3 * k + m + 3), if_neg hpos]
    have h2 : ((k + 1 : Nat) : Int) - 1 = ((k : Nat) : Int) := by push_cast; ring
    have h3 : (3 * k + m + 3) + 1 = 3 * k + m + 4 := by ring
    rw [h2, h3, ih m (((k + 1 : Nat) : Int) * total)]
    simp [facInt]

theorem topGlue (ctx : Context) (fd fd2 : FunDef)
    (hfd : ctx.bindings.lookup "fact" = some fd)
    (hp : fd.params = ["n", "total"]) (hb : fd.body = factBody)
    (hfd2 : ctx.bindings.lookup "factorial" = some fd2)
    (hp2 : fd2.params = ["n"]) (hb2 : fd2.body = factorialBody)
    (F : Nat) :
    evalE (F + 4) ctx [] topFact2000
      = evalE F ctx [("n", .int 2000), ("total", .int 1)] factBody := by
  simp [topFact2000, factorialBody, evalE, lookupIdVal, List.lookup, applyV,
    bind_ok, pure_eq_ok, mapM_loop_cons, mapM_loop_nil,
    hfd, hp, hb, hfd2, hp2, hb2]

theorem ctx6_fact_shape :
    (ctx6.bindings.lookup "fact").map (fun fd => (fd.params, fd.body))
      = some (["n", "total"], factBody) := by
  decide!

theorem ctx6_factorial_shape :
    (ctx6.bindings.lookup "factorial").map (fun fd => (fd.params, fd.body))
      = some (["n"], factorialBody) := by
  decide!

theorem ctx6_le_none : (ctx6.bindings.lookup "<=").isNone = true := by decide!

theorem ctx6_sub_none : (ctx6.bindings.lookup "-").isNone = true := by decide!

theorem ctx6_mul_none : (ctx6.bindings.lookup "*").isNone = true := by decide!

theorem facInt_ofNat : ∀ (k t : Nat), facInt k ((t : Nat) : Int) = ((factAcc k t : Nat) : Int) := by
  intro k
  induction k with
  | zero => intro t; simp [facInt, factAcc]
  | succ k ih =>
    intro t
    have hc : ((k + 1 : Nat) : Int) * ((t : Nat) : Int) = (((k + 1) * t : Nat) : Int) := by
      push_cast; ring
    rw [facInt, hc, ih ((k + 1) * t), factAcc]

theorem intStr_ofNat (n : Nat) : intStr ((n : Nat) : Int) = Nat.repr n := by
  have h : ¬(((n : Nat) : Int) < 0) := not_lt.mpr (Int.natCast_nonneg n)
  simp [intStr, h]

theorem evalRT_ok (code : String) (ctx : Context) (es : List Expr)
    (hp : parse code FILE_ID_EVAL = .ok es)
    (ht : typeCheckTops ctx es = .ok ()) :
    eval code ctx = .ok (es.map (evalTop ctx)) := by
  unfold eval evalRT
  rw [hp]
  dsimp only []
  rw [ht]

theorem evalTop_ok (ctx : Context) (e : Expr) (v : Value)
    (h : evalE evalFuel ctx [] e = .ok v) :
    evalTop ctx e = .ok (display dispFuel v) := by
  unfold evalTop
  rw [h]

theorem display_int (F : Nat) (n : Int) : display (F + 1) (.int n) = intStr n := rfl

theorem evalE_fact2000 :
    evalE evalFuel ctx6 [] topFact2000 = .ok (.int (facInt 2000 1)) := by
  have hfs := ctx6_fact_shape
  have hfs2 := ctx6_factorial_shape
  rcases hm : ctx6.bindings.lookup "fact" with _ | fd
  · rw [hm] at hfs; cases hfs
  rcases hm2 : ctx6.bindings.lookup "factorial" with _ | fd2
  · rw [hm2] at hfs2; cases hfs2
  rw [hm] at hfs
  rw [hm2] at hfs2
  simp only [Option.map_some', Option.some.injEq, Prod.mk.injEq] at hfs hfs2
  have hle : ctx6.bindings.lookup "<=" = none := Option.isNone_iff_eq_none.mp ctx6_le_none
  have hsub : ctx6.bindings.lookup "-" = none := Option.isNone_iff_eq_none.mp ctx6_sub_none
  have hmul : ctx6.bindings.lookup "*" = none := Option.isNone_iff_eq_none.mp ctx6_mul_none
  have he : evalFuel = 9999996 + 4 := by norm_num [evalFuel]
  rw [he, topGlue ctx6 fd fd2 hm hfs.1 hfs.2 hm2 hfs2.1 hfs2.2 9999996]
  have h2 : (9999996 : Nat) = 3 * 2000 + 9993992 + 4 := by norm_num
  have hc2 : (2000 : Int) = ((2000 : Nat) : Int) := by norm_cast
  have hc1 : (1 : Int) = ((1 : Nat) : Int) := by norm_cast
  rw [h2, hc2, hc1, simFact ctx6 fd hm hfs.1 hfs.2 hle hsub hmul 2000 9993992 _]

theorem eval_fact2000 :
    eval "(factorial 2000)" ctx6 = .ok [.ok (Nat.repr (factAcc 2000 1))] := by
  have hparse : parse "(factorial 2000)" FILE_ID_EVAL = .ok [topFact2000] := by decide!
  have htc : typeCheckTops ctx6 [topFact2000] = .ok () := by decide!
  rw [evalRT_ok "(factorial 2000)" ctx6 [topFact2000] hparse htc, List.map, List.map,
    evalTop_ok ctx6 topFact2000 (.int (facInt 2000 1)) evalE_fact2000]
  have hdisp : dispFuel = 99999 + 1 := by norm_num [dispFuel]
  rw [hdisp, display_int]
  have h1 : (1 : Int) = ((1 : Nat) : Int) := by norm_cast
  rw [h1, facInt_ofNat, intStr_ofNat]

/-- C6: with `factorial` declared via `(fact n 1)` and a tail-recursive
helper, `eval "(factorial 10)"` gives `3628800` and
`eval "(factorial 2000)"` gives the exact decimal representation of
`2000!`, a 5736-digit integer: arithmetic is arbitrary precision. -/
theorem claim6_factorial :
    (pipeline factCode).isOk = true ∧
    eval "(factorial 10)" ctx6 = .ok [.ok "3628800"] ∧
    eval "(factorial 2000)" ctx6 = .ok [.ok (Nat.repr (factAcc 2000 1))] ∧
    factAcc 2000 1 = Nat.factorial 2000 ∧
    (Nat.repr (factAcc 2000 1)).length = 5736 := by
  refine ⟨?_, ?_, ?_, ?_, ?_⟩
  · decide!
  · decide!
  · exact eval_fact2000
  · rw [factAcc_eq, one_mul]
  · decide!

/-- C7: after `init ""` and `typing`, `(+ 10 20)` evaluates to `30` and
`(+ 0x10 0x20)` to `48`; `0x`, `0b`, `0o` literals are read in bases
16, 2, 8 and results are printed in decimal. -/
theorem claim7_bases :
    (pipeline "").isOk = true ∧
    eval "(+ 10 20)" ctx0 = .ok [.ok "30"] ∧
    eval "(+ 0x10 0x20)" ctx0 = .ok [.ok "48"] ∧
    eval "(+ 0b111 0b101)" ctx0 = .ok [.ok "12"] ∧
    eval "(+ 0o777 0o444)" ctx0 = .ok [.ok "803"] := by
  refine ⟨?_, ?_, ?_, ?_, ?_⟩
  · decide!
  · decide!
  · decide!
  · decide!
  · decide!

/-- C3: `init code` succeeds exactly when the embedded prelude and `code`
both parse, returning the prelude's expressions followed by `code`'s in
source order; otherwise it returns the single parse error, its message
prefixed by `"Syntax Error: "` and its position unchanged. -/
theorem claim3_init_shape (code : String) :
    init code =
      (match parse preludeText FILE_ID_PRELUD with
        | .error pe => .error ⟨"Syntax Error: " ++ pe.msg, pe.pos⟩
        | .ok ps =>
          match parse code FILE_ID_USER with
          | .ok us => .ok (ps ++ us)
          | .error pe => .error ⟨"Syntax Error: " ++ pe.msg, pe.pos⟩) := by
  unfold init initWith
  cases parse preludeText FILE_ID_PRELUD <;> cases parse code FILE_ID_USER <;> rfl

/-- C9: `typing` either returns the context produced by semantic analysis,
or fails with the analyzer's error position and its message prefixed by
the literal string `"Typing Error: "`. -/
theorem claim9_typing_wrapper (es : List Expr) :
    (typing es).isOk = (exprs2context es).isOk ∧
    (∀ c, exprs2context es = .ok c → typing es = .ok c) ∧
    (∀ e, exprs2context es = .error e →
      typing es = .error ⟨"Typing Error: " ++ e.msg, e.pos⟩) := by
  refine ⟨?_, ?_, ?_⟩
  · cases h : exprs2context es with
    | ok c => simp [typing, h, Except.isOk]
    | error e => simp [typing, h, Except.isOk, Except.toBool]
  · intro c h; simp [typing, h]
  · intro e h; simp [typing, h]

/-- Witness for C9: the empty forest elaborates to the empty context, and
an invalid top-level form fails with the analyzer's position and the
`"Typing Error: "` prefix. -/
theorem claim9_witness :
    typing [] = .ok ⟨[], [], [], none⟩ ∧
    typing [Expr.num 1 ⟨0, 0, 0⟩] =
      .error ⟨"Typing Error: " ++ "invalid top-level expression", ⟨0, 0, 0⟩⟩ :=
  ⟨(claim9_typing_wrapper []).2.1 ⟨[], [], [], none⟩ rfl,
   (claim9_typing_wrapper [Expr.num 1 ⟨0, 0, 0⟩]).2.2
     ⟨"invalid top-level expression", ⟨0, 0, 0⟩⟩ rfl⟩

/-- C10: `init` and `typing` are deterministic functions of their
arguments, and the only context mutation, `set_callback`, changes the
callback slot and nothing else. -/
theorem claim10_determinism :
    (∀ c₁ c₂ : String, c₁ = c₂ → init c₁ = init c₂) ∧
    (∀ es₁ es₂ : List Expr, es₁ = es₂ → typing es₁ = typing es₂) ∧
    (∀ (ctx : Context) f, set_callback ctx f =
      { types := ctx.types, constructors := ctx.constructors,
        bindings := ctx.bindings, callback := some f }) := by
  refine ⟨?_, ?_, ?_⟩
  · intro c₁ c₂ h; rw [h]
  · intro a b h; rw [h]
  · intro ctx f; rfl

/-- Witness for C10 at concrete inputs. -/
theorem claim10_witness :
    init "" = init "" ∧ typing [] = typing [] :=
  ⟨claim10_determinism.1 "" "" rfl, claim10_determinism.2.1 [] [] rfl⟩

/-- C4: if the text passed to `eval` parses into the forest `es` and every
expression in it type-checks against the context, then `eval` returns one
entry per top-level expression, in order, each produced from its own
expression alone (so one failure cannot disturb the others), and an empty
forest yields the empty result list. -/
theorem claim4_eval_entries (code : String) (ctx : Context) (es : List Expr)
    (hp : parse code FILE_ID_EVAL = .ok es)
    (ht : typeCheckTops ctx es = .ok ()) :
    eval code ctx = .ok (es.map (evalTop ctx)) ∧
    (es.map (evalTop ctx)).length = es.length ∧
    (es = [] → eval code ctx = .ok []) := by
  have hmain : eval code ctx = .ok (es.map (evalTop ctx)) := by
    simp only [eval, evalRT, hp, ht]
  refine ⟨hmain, List.length_map _ _, ?_⟩
  intro he
  rw [he] at hmain
  exact hmain

/-- Witness for C4: the empty input gives the empty result list, and a
two-expression input gives its two entries, a success after a failure. -/
theorem claim4_witness :
    eval "" emptyCtx = .ok ([].map (evalTop emptyCtx)) ∧
    eval "(+ 1 2) (/ 1 0)" emptyCtx = .ok ([e4a, e4b].map (evalTop emptyCtx)) ∧
    [e4a, e4b].map (evalTop emptyCtx) = [.ok "3", .error "divide by zero"] :=
  ⟨(claim4_eval_entries "" emptyCtx [] rfl rfl).1,
   (claim4_eval_entries "(+ 1 2) (/ 1 0)" emptyCtx [e4a, e4b] rfl rfl).1,
   by decide!⟩

theorem lexStrAux_err_pos (fid : Nat) :
    ∀ (n : Nat) (cs : List Char), cs.length ≤ n → ∀ (line col : Nat) (er : SynErr),
      lexStrAux fid cs line col = .error er → er.pos.file_id = fid := by
  intro n
  induction n with
  | zero =>
    intro cs hlen line col er h
    have hnil : cs = [] := List.eq_nil_of_length_eq_zero (Nat.le_zero.mp hlen)
    subst hnil
    simp only [lexStrAux] at h
    cases h
    rfl
  | succ n ih =>
    intro cs hlen line col er h
    cases cs with
    | nil =>
      simp only [lexStrAux] at h
      cases h
      rfl
    | cons c rest =>
      simp only [List.length_cons] at hlen
      rw [lexStrAux.eq_def] at h
      dsimp only [] at h
      split at h
      · cases h
      · split at h
        · cases rest with
          | nil =>
            dsimp only [] at h
            cases h
            rfl
          | cons e rest2 =>
            dsimp only [] at h
            split at h
            · split at h
              · cases h
              · rename_i er2 hr
                cases h
                exact ih rest2 (by simp at hlen ⊢; omega) _ _ _ hr
            · cases h
              rfl
        · split at h
          · cases h
          · rename_i er2 hr
            cases h
            exact ih rest (by simp at hlen ⊢; omega) _ _ _ hr


theorem classifyAtom_ok_pos (acs : List Char) (p : Pos) (e : Expr) :
    classifyAtom acs p = .ok e → positionsOf e = [p] := by
  intro h
  simp only [classifyAtom] at h
  split at h
  · cases h; rfl
  · split at h
    · cases h; rfl
    · split at h
      · split at h
        · split at h
          · cases h; rfl
          · cases h
        · cases h; rfl
      · split at h
        · split at h
          · cases h; rfl
          · cases h
        · cases h; rfl
      · cases h

theorem classifyAtom_err_pos (acs : List Char) (p : Pos) (er : SynErr) :
    classifyAtom acs p = .error er → er.pos = p := by
  intro h
  simp only [classifyAtom] at h
  split at h
  · cases h
  · split at h
    · cases h
    · split at h
      · split at h
        · split at h
          · cases h
          · cases h; rfl
        · cases h
      · split at h
        · split at h
          · cases h
          · cases h; rfl
        · cases h
      · cases h; rfl


theorem positionsOfList_append (as bs : List Expr) :
    positionsOfList (as ++ bs) = positionsOfList as ++ positionsOfList bs := by
  induction as with
  | nil => simp [positionsOfList]
  | cons e es ih => simp [positionsOfList, ih]

theorem parser_fid (fid : Nat) : ∀ n : Nat,
    (∀ st, eresOkE fid (parseExpr fid n st)) ∧
    (∀ st close popen, popen.file_id = fid → eresOkM fid (parseMany fid n st close popen)) := by
  intro n
  induction n with
  | zero =>
    constructor
    · intro st
      simp [parseExpr, eresOkE]
    · intro st close popen hpo
      simp [parseMany, eresOkM]
  | succ n ih =>
    obtain ⟨ihE, ihM⟩ := ih
    constructor
    · intro st
      rw [parseExpr.eq_def]
      dsimp only []
      rcases hcs : (skipWS st).cs with _ | ⟨c, rest⟩
      · simp [eresOkE]
      · dsimp only []
        split
        · rcases hr : parseMany fid n ⟨rest, (skipWS st).line, (skipWS st).col + 1⟩ ')'
              ⟨fid, (skipWS st).line, (skipWS st).col⟩ with er | ⟨es, st1⟩
          · have hm := ihM ⟨rest, (skipWS st).line, (skipWS st).col + 1⟩ ')'
              ⟨fid, (skipWS st).line, (skipWS st).col⟩ rfl
            rw [hr] at hm
            exact hm
          · have hm := ihM ⟨rest, (skipWS st).line, (skipWS st).col + 1⟩ ')'
              ⟨fid, (skipWS st).line, (skipWS st).col⟩ rfl
            rw [hr] at hm
            intro q hq
            simp only [positionsOf, List.mem_cons] at hq
            rcases hq with rfl | hq
            · rfl
            · exact hm q hq
        · split
          · rcases hr : parseMany fid n ⟨rest, (skipWS st).line, (skipWS st).col + 1⟩ ']'
                ⟨fid, (skipWS st).line, (skipWS st).col⟩ with er | ⟨es, st1⟩
            · have hm := ihM ⟨rest, (skipWS st).line, (skipWS st).col + 1⟩ ']'
                ⟨fid, (skipWS st).line, (skipWS st).col⟩ rfl
              rw [hr] at hm
              exact hm
            · have hm := ihM ⟨rest, (skipWS st).line, (skipWS st).col + 1⟩ ']'
                ⟨fid, (skipWS st).line, (skipWS st).col⟩ rfl
              rw [hr] at hm
              intro q hq
              simp only [positionsOf, List.mem_cons] at hq
              rcases hq with rfl | hq
              · rfl
              · exact hm q hq
          · split
            · exact rfl
            · split
              · rcases hr : lexStrAux fid rest (skipWS st).line ((skipWS st).col + 1)
                    with er | ⟨cs2, st1⟩
                · exact lexStrAux_err_pos fid rest.length rest le_rfl _ _ _ hr
                · intro q hq
                  simp only [positionsOf, List.mem_singleton] at hq
                  subst hq
                  rfl
              · split
                · rcases hcl : charLit rest with _ | ⟨ch, rest', len⟩
                  · rcases hr : parseExpr fid n ⟨rest, (skipWS st).line, (skipWS st).col + 1⟩
                        with er | ⟨e, st1⟩
                    · have he := ihE ⟨rest, (skipWS st).line, (skipWS st).col + 1⟩
                      rw [hr] at he
                      exact he
                    · have he := ihE ⟨rest, (skipWS st).line, (skipWS st).col + 1⟩
                      rw [hr] at he
                      intro q hq
                      simp only [positionsOf, List.mem_cons] at hq
                      rcases hq with rfl | hq
                      · rfl
                      · exact he q hq
                  · intro q hq
                    simp only [positionsOf, List.mem_singleton] at hq
                    subst hq
                    rfl
                · rcases ht : takeAtom (c :: rest) with ⟨acs, rest'⟩
                  rcases acs with _ | ⟨a, as⟩
                  · exact rfl
                  · show eresOkE fid
                      (match classifyAtom (a :: as) ⟨fid, (skipWS st).line, (skipWS st).col⟩ with
                        | .ok e => .ok (e,
                            ⟨rest', (skipWS st).line, (skipWS st).col + (a :: as).length⟩)
                        | .error er => .error er)
                    rcases hca : classifyAtom (a :: as) ⟨fid, (skipWS st).line, (skipWS st).col⟩
                        with er | e
                    · show er.pos.file_id = fid
                      rw [classifyAtom_err_pos _ _ _ hca]
                    · intro q hq
                      rw [classifyAtom_ok_pos _ _ _ hca] at hq
                      simp only [List.mem_singleton] at hq
                      subst hq
                      rfl
    · intro st close popen hpo
      rw [parseMany.eq_def]
      dsimp only []
      rcases hcs : (skipWS st).cs with _ | ⟨c, rest⟩
      · exact hpo
      · dsimp only []
        split
        · intro q hq
          simp [positionsOfList] at hq
        · split
          · exact rfl
          · rcases hr : parseExpr fid n (skipWS st) with er | ⟨e, st1⟩
            · have he := ihE (skipWS st)
              rw [hr] at he
              exact he
            · dsimp only []
              rcases hr2 : parseMany fid n st1 close popen with er2 | ⟨es, st2⟩
              · have hm := ihM st1 close popen hpo
                rw [hr2] at hm
                exact hm
              · have he := ihE (skipWS st)
                rw [hr] at he
                have hm := ihM st1 close popen hpo
                rw [hr2] at hm
                intro q hq
                simp only [positionsOfList, List.mem_append] at hq
                rcases hq with hq | hq
                · exact he q hq
                · exact hm q hq

theorem parseAll_fid (fid : Nat) : ∀ (n : Nat) (st : PState), eresOkA fid (parseAll fid n st) := by
  intro n
  induction n with
  | zero =>
    intro st
    simp [parseAll, eresOkA]
  | succ n ih =>
    intro st
    rw [parseAll.eq_def]
    dsimp only []
    rcases hcs : (skipWS st).cs with _ | ⟨c, rest⟩
    · intro q hq
      simp [positionsOfList] at hq
    · dsimp only []
      rcases hr : parseExpr fid n (skipWS st) with er | ⟨e, st1⟩
      · have he := (parser_fid fid n).1 (skipWS st)
        rw [hr] at he
        exact he
      · dsimp only []
        rcases hr2 : parseAll fid n st1 with er2 | es
        · have ha := ih st1
          rw [hr2] at ha
          exact ha
        · have he := (parser_fid fid n).1 (skipWS st)
          rw [hr] at he
          have ha := ih st1
          rw [hr2] at ha
          intro q hq
          simp only [positionsOfList, List.mem_append] at hq
          rcases hq with hq | hq
          · exact he q hq
          · exact ha q hq

theorem parse_ok_fid (s : String) (fid : Nat) (es : List Expr) :
    parse s fid = .ok es → ∀ q ∈ positionsOfList es, q.file_id = fid := by
  intro h
  have ha := parseAll_fid fid (s.length * 2 + 8) ⟨s.data, 0, 0⟩
  rw [parse] at h
  rw [h] at ha
  exact ha

theorem parse_err_fid (s : String) (fid : Nat) (er : SynErr) :
    parse s fid = .error er → er.pos.file_id = fid := by
  intro h
  have ha := parseAll_fid fid (s.length * 2 + 8) ⟨s.data, 0, 0⟩
  rw [parse] at h
  rw [h] at ha
  exact ha

/-- C8: every position the parser attaches to an expression node or to a
syntax error carries the file id the parser was invoked with; `initWith`
parses the prelude under file id 0 and user code under file id 1, so a
successful `init` forest only holds positions with those two ids, and a
prelude parse failure surfaces as the wrapped syntax error whose position
carries `file_id = 0`. -/
theorem claim8_file_ids :
    (∀ (s : String) (fid : Nat) (es : List Expr), parse s fid = .ok es →
        ∀ q ∈ positionsOfList es, q.file_id = fid) ∧
    (∀ (s : String) (fid : Nat) (er : SynErr), parse s fid = .error er →
        er.pos.file_id = fid) ∧
    (∀ ptext code es, initWith ptext code = .ok es → ∀ q ∈ positionsOfList es,
        q.file_id = FILE_ID_PRELUD ∨ q.file_id = FILE_ID_USER) ∧
    (∀ ptext code pe, parse ptext FILE_ID_PRELUD = .error pe →
        initWith ptext code = .error ⟨"Syntax Error: " ++ pe.msg, pe.pos⟩ ∧
        pe.pos.file_id = FILE_ID_PRELUD) := by
  refine ⟨parse_ok_fid, parse_err_fid, ?_, ?_⟩
  · intro ptext code es h q hq
    unfold initWith at h
    cases hp : parse ptext FILE_ID_PRELUD with
    | error pe =>
      rw [hp] at h
      cases h
    | ok ps =>
      rw [hp] at h
      cases hu : parse code FILE_ID_USER with
      | error pe =>
        rw [hu] at h
        cases h
      | ok us =>
        rw [hu] at h
        cases h
        rw [positionsOfList_append] at hq
        rcases List.mem_append.mp hq with hq | hq
        · exact Or.inl (parse_ok_fid ptext FILE_ID_PRELUD ps hp q hq)
        · exact Or.inr (parse_ok_fid code FILE_ID_USER us hu q hq)
  · intro ptext code pe h
    constructor
    · unfold initWith
      rw [h]
    · exact parse_err_fid ptext FILE_ID_PRELUD pe h

/-- Witness for C8 at concrete inputs. -/
theorem claim8_witness :
    (⟨5, 0, 0⟩ : Pos).file_id = 5 ∧
    (⟨3, 0, 0⟩ : Pos).file_id = 3 ∧
    ((⟨0, 0, 0⟩ : Pos).file_id = FILE_ID_PRELUD ∨ (⟨0, 0, 0⟩ : Pos).file_id = FILE_ID_USER) ∧
    initWith "(" "" = .error ⟨"Syntax Error: " ++ "unbalanced delimiter", ⟨0, 0, 0⟩⟩ ∧
    (⟨0, 0, 0⟩ : Pos).file_id = FILE_ID_PRELUD :=
  ⟨claim8_file_ids.1 "x" 5 [.id "x" ⟨5, 0, 0⟩] rfl ⟨5, 0, 0⟩
     (by simp [positionsOf, positionsOfList]),
   claim8_file_ids.2.1 ")" 3 ⟨"unexpected closing delimiter", ⟨3, 0, 0⟩⟩ rfl,
   claim8_file_ids.2.2.1 "x" "y" [.id "x" ⟨0, 0, 0⟩, .id "y" ⟨1, 0, 0⟩] rfl ⟨0, 0, 0⟩
     (by simp [positionsOf, positionsOfList]),
   (claim8_file_ids.2.2.2 "(" "" ⟨"unbalanced delimiter", ⟨0, 0, 0⟩⟩ rfl).1,
   (claim8_file_ids.2.2.2 "(" "" ⟨"unbalanced delimiter", ⟨0, 0, 0⟩⟩ rfl).2⟩

end BLisp
